import Mathlib

/-!
# Verification of the `optimize-images` batch conversion driver

Shallow embedding of `src/optimize-images.js` (the `@mjnrojan/image-optimizer`
CLI).  Paths are modelled as lists of characters, the filesystem as an
association list from paths to file contents, and the Sharp codec as an
abstract pair of deterministic functions (`probe`, `encode`).  The statistics
object, the per-file conversion routine `convertMedia`, the sequential batch
loop of `main`, the recursive scanner `getMediaFiles` and the explicit-file
discovery branch of `main` are translated operation by operation.
-/

set_option maxRecDepth 10000

namespace ImageOptimizer

/-- Paths and path fragments are modelled as lists of characters. -/
abbrev Str := List Char

/-- Coerce a Lean string literal into the character-list model. -/
def str (s : String) : Str := s.data

/-- JavaScript `s.replace(pat, repl)` with a *string* pattern: only the first
occurrence of `pat` is replaced; if `pat` does not occur, `s` is returned
unchanged; an empty pattern matches at position 0 (so `repl` is prepended).
The replacement strings used by the source (`".webp"`, `".avif"`) contain no
`$` substitution patterns, so plain splicing is faithful. -/
def replaceFirst (s pat repl : Str) : Str :=
  if pat = [] then repl ++ s
  else
    match s with
    | [] => []
    | c :: rest =>
      if pat.isPrefixOf (c :: rest) then repl ++ (c :: rest).drop pat.length
      else c :: replaceFirst rest pat repl

/-- The final path component: the characters after the last `/`.
(File paths produced by the scanner never end in a separator, so the
trailing-separator trimming done by Node's `path` module is not needed.) -/
def baseNamePart (p : Str) : Str :=
  (p.reverse.takeWhile (fun c => c ≠ '/')).reverse

/-- The extension of a path component: from its last `.` to the end; empty
when the component has no dot, when its only dot is the leading character
(dotfiles such as `.bashrc`), or when the component is `..`. -/
def extnameOfBase (base : Str) : Str :=
  if base = str ".." then []
  else
    let tail := base.reverse.takeWhile (fun c => c ≠ '.')
    if tail.length = base.length then []
    else if tail.length + 1 = base.length then []
    else base.drop (base.length - tail.length - 1)

/-- Node `path.extname`: the extension of the last path component. -/
def extname (p : Str) : Str := extnameOfBase (baseNamePart p)

/-- JavaScript `toLowerCase` on the ASCII extensions the source compares. -/
def toLower (s : Str) : Str := s.map Char.toLower

/-- Source constant `CONFIG.SUPPORTED_IMAGE_FORMATS`. -/
def SUPPORTED_IMAGE_FORMATS : List Str :=
  [str ".jpg", str ".jpeg", str ".png", str ".gif"]

/-- Source constant `CONFIG.SUPPORTED_VIDEO_FORMATS`. -/
def SUPPORTED_VIDEO_FORMATS : List Str :=
  [str ".mp4", str ".webm", str ".mov"]

/-- Source constant `allSupportedFormats` in `getMediaFiles`. -/
def allSupportedFormats : List Str :=
  SUPPORTED_IMAGE_FORMATS ++ SUPPORTED_VIDEO_FORMATS

/-- Values of `CONFIG.OUTPUT_FORMAT`: exactly the two CLI format selectors. -/
inductive OutputFormat
  | webp
  | avif
deriving DecidableEq, Repr

/-- The format name as it appears in `CONFIG.OUTPUT_FORMAT`. -/
def formatName : OutputFormat → Str
  | .webp => str "webp"
  | .avif => str "avif"

/-- The derived output extension, `"." + CONFIG.OUTPUT_FORMAT` in the source. -/
def outputExtOf (fmt : OutputFormat) : Str := '.' :: formatName fmt

/-- The run configuration (`CONFIG` plus the `--lossless` flag). -/
structure Config where
  outputFormat : OutputFormat
  lossless : Bool
  webpQuality : Nat
  webpEffort : Nat
  avifQuality : Nat
  avifEffort : Nat
deriving DecidableEq, Repr

/-- A stored file: its byte contents. `size` is the `fs.stat(...).size` view. -/
structure File where
  bytes : List Nat
deriving DecidableEq, Repr

/-- Model of `fs.stat(p).size`. -/
def File.size (f : File) : Nat := f.bytes.length

/-- The filesystem: an association list from paths to file contents.  The
first binding for a path is authoritative; the driver only ever creates
fresh paths, so insertion is `cons`. -/
abbrev FS := List (Str × File)

/-- Look a path up in the filesystem. -/
def fsFind (fs : FS) (p : Str) : Option File :=
  match fs with
  | [] => none
  | (q, f) :: rest => if q = p then some f else fsFind rest p

/-- The module-level `stats` object.  `avifSize` is declared in the source
but never updated; it is carried for fidelity. -/
structure Stats where
  totalFiles : Nat
  converted : Nat
  skipped : Nat
  errors : Nat
  originalSize : Nat
  outputSize : Nat
  avifSize : Nat
deriving DecidableEq, Repr

/-- The `stats` object as initialised by `main` just before the loop:
`stats.totalFiles = mediaFiles.length`, every other field zero. -/
def initStats (n : Nat) : Stats :=
  { totalFiles := n, converted := 0, skipped := 0, errors := 0
    originalSize := 0, outputSize := 0, avifSize := 0 }

/-- The per-task result visible in the log: converted (with the two byte
sizes), skipped because the output exists, or failed with a caught error. -/
inductive Outcome
  | converted (origBytes outBytes : Nat)
  | skipped
  | failed
deriving DecidableEq, Repr

/-- The subset of `sharp().metadata()` the source reads. -/
structure Metadata where
  width : Nat
  height : Nat
  pages : Option Nat
deriving DecidableEq, Repr

/-- The encoder options object handed to `sharp`.  One structure covers both
the `.avif({...})` and `.webp({...})` option objects plus the
`.animated(true)` pipeline call; fields a format's option object does not
carry in JavaScript (`item` for WebP, `loop` for AVIF) are `false`/`none`,
and an absent `lossless` key is `none`. -/
structure EncodeParams where
  format : OutputFormat
  animated : Bool
  item : Bool
  quality : Nat
  effort : Nat
  lossless : Option Bool
  loop : Option Nat
deriving DecidableEq, Repr

/-- Source function `isVideoFormat`. -/
def isVideoFormat (p : Str) : Bool :=
  decide (toLower (extname p) ∈ SUPPORTED_VIDEO_FORMATS)

/-- Source function `isGifFormat`. -/
def isGifFormat (p : Str) : Bool :=
  decide (toLower (extname p) = str ".gif")

/-- Source expression `const isAnimated = isGifFormat(filePath) || isVideoFormat(filePath)`. -/
def isAnimatedPath (p : Str) : Bool := isGifFormat p || isVideoFormat p

/-- Source condition `isAnimated && metadata.pages && metadata.pages > 1`
guarding the `.animated(true)` call (JavaScript truthiness on `pages`). -/
def animatedFlag (p : Str) (md : Metadata) : Bool :=
  isAnimatedPath p &&
    (match md.pages with
     | some n => decide (1 < n)
     | none => false)

/-- The encoder options `convertMedia` builds for a file.  Object spread
puts later keys last, so for animated content the second `effort` key
(`Math.min(CONFIG.AVIF_EFFORT, 4)`) overrides the first, and `lossless` is
present only when `CONFIG.LOSSLESS` is set. -/
def encodeParamsFor (cfg : Config) (p : Str) (md : Metadata) : EncodeParams :=
  match cfg.outputFormat with
  | .avif =>
    { format := .avif
      animated := animatedFlag p md
      item := true
      quality := cfg.avifQuality
      effort := if isAnimatedPath p then min cfg.avifEffort 4 else cfg.avifEffort
      lossless := if cfg.lossless then some true else none
      loop := none }
  | .webp =>
    { format := .webp
      animated := animatedFlag p md
      item := false
      quality := cfg.webpQuality
      effort := cfg.webpEffort
      lossless := if cfg.lossless then some true else none
      loop := if isAnimatedPath p then some 0 else none }

/-- The Sharp library, abstracted: `probe` is `sharp(path).metadata()` and
`encode` is the `.avif/.webp(...).toFile(...)` pipeline producing the output
file contents; `none` models a rejected promise (corrupt or unsupported
input, encode failure).  Both are deterministic functions of the input
file's contents. -/
structure Codec where
  probe : File → Option Metadata
  encode : EncodeParams → File → Option File

/-- Source expression `filePath.replace(ext, outputExt)` with `ext = path.extname(filePath)` —
the derived output path. -/
def outPath (cfg : Config) (p : Str) : Str :=
  replaceFirst p (extname p) (outputExtOf cfg.outputFormat)

/-- Source function `convertMedia(filePath)`: returns the filesystem after the call, the
updated statistics and the task's outcome.  Mirrors the source's control
flow: existence check on the output path first (skip), then `fs.stat` on the
input (its size is added to `originalSize` *before* any codec work), then
`metadata()`, then the encode; the surrounding `try/catch` turns any failure
into `stats.errors++`, keeping the statistics updates already applied. -/
def convertMedia (cfg : Config) (codec : Codec) (p : Str) (fs : FS) (st : Stats) :
    FS × Stats × Outcome :=
  let outputPath := outPath cfg p
  if (fsFind fs outputPath).isSome then
    (fs, { st with skipped := st.skipped + 1 }, .skipped)
  else
    match fsFind fs p with
    | none =>
      -- `fs.stat(filePath)` rejects: caught, `stats.errors++`.
      (fs, { st with errors := st.errors + 1 }, .failed)
    | some orig =>
      let st1 := { st with originalSize := st.originalSize + orig.size }
      match codec.probe orig with
      | none =>
        -- `image.metadata()` rejects: caught after `originalSize` was added.
        (fs, { st1 with errors := st1.errors + 1 }, .failed)
      | some md =>
        match codec.encode (encodeParamsFor cfg p md) orig with
        | none =>
          -- `.toFile(outputPath)` rejects: caught, no output written.
          (fs, { st1 with errors := st1.errors + 1 }, .failed)
        | some out =>
          ((outputPath, out) :: fs,
           { st1 with outputSize := st1.outputSize + out.size
                      converted := st1.converted + 1 },
           .converted orig.size out.size)

/-- The observable result of one batch run: final filesystem, final
statistics, and the per-task outcome log in task order. -/
structure RunResult where
  fs : FS
  stats : Stats
  outcomes : List Outcome
deriving Repr

/-- The sequential loop of `main`:
`for (const filePath of mediaFiles) { await convertMedia(filePath); }`. -/
def runTasks (cfg : Config) (codec : Codec) : List Str → FS → Stats → RunResult
  | [], fs, st => ⟨fs, st, []⟩
  | p :: ps, fs, st =>
    let step := convertMedia cfg codec p fs st
    let r := runTasks cfg codec ps step.1 step.2.1
    ⟨r.fs, r.stats, step.2.2 :: r.outcomes⟩

/-- A directory tree as returned by `fs.readdir(dir, { withFileTypes: true })`:
each entry is a plain file or a subdirectory, in listing order. -/
inductive Entry
  | file (name : Str) (f : File)
  | dir (name : Str) (entries : List Entry)
deriving Repr

/-- Model of `path.join(dir, item.name)` for the separator-free names `readdir`
returns: `dir ++ "/" ++ name`. -/
def joinPath (dir name : Str) : Str := dir ++ '/' :: name

/-- Source function `getMediaFiles(dir)`: depth-first enumeration of the tree, keeping a
file exactly when `allSupportedFormats.includes(path.extname(item.name).toLowerCase())`.
The modelled trees carry no read errors (the source logs a failed `readdir`
and returns the partial result; error-free trees suffice for the claims). -/
def getMediaFiles (dir : Str) : List Entry → List Str
  | [] => []
  | .file name _ :: rest =>
    (if toLower (extname name) ∈ allSupportedFormats
     then [joinPath dir name] else []) ++ getMediaFiles dir rest
  | .dir name sub :: rest =>
    getMediaFiles (joinPath dir name) sub ++ getMediaFiles dir rest

/-- Flatten a directory tree into the association-list filesystem the driver
reads and writes, pairing each file with its full path. -/
def flattenTree (dir : Str) : List Entry → FS
  | [] => []
  | .file name f :: rest => (joinPath dir name, f) :: flattenTree dir rest
  | .dir name sub :: rest => flattenTree (joinPath dir name) sub ++ flattenTree dir rest

/-- Well-formedness of `readdir` output: entry names never contain the path
separator. -/
def entriesWF : List Entry → Bool
  | [] => true
  | .file name _ :: rest =>
    name.all (fun c => decide (c ≠ '/')) && entriesWF rest
  | .dir name sub :: rest =>
    name.all (fun c => decide (c ≠ '/')) && entriesWF sub && entriesWF rest

/-- The explicit-file branch of `main`: each listed path is probed with
`fs.access`; a missing file is logged and dropped (the `catch` is inside the
loop), an existing one is pushed onto `mediaFiles` with no extension check.
`path.resolve` is modelled as the identity (paths given in resolved form). -/
def discoverExplicit (fs : FS) (files : List Str) : List Str :=
  files.filter (fun p => (fsFind fs p).isSome)

/-- Process exit status: `ok` is the normal zero exit, `fatal` is the
`process.exit(1)` in `main`'s catch block. -/
inductive ExitStatus
  | ok
  | fatal
deriving DecidableEq, Repr

/-- Source function `main`.  Discovery: explicit files when any were given (per-file
`fs.access` failures caught inside the loop), otherwise `fs.access(ASSETS_DIR)`
followed by the recursive scan — `rootEntries = none` models an inaccessible
scan root, whose rejected `fs.access` reaches the outer catch and
`process.exit(1)`.  Then `stats.totalFiles = mediaFiles.length`, an early
normal return on an empty list, else the sequential conversion loop.  In
scan mode the filesystem the driver sees is the flattened tree. -/
def mainRun (cfg : Config) (codec : Codec) (explicitFiles : List Str)
    (explicitFs : FS) (rootPath : Str) (rootEntries : Option (List Entry)) :
    ExitStatus × RunResult :=
  if explicitFiles ≠ [] then
    let tasks := discoverExplicit explicitFs explicitFiles
    if tasks = [] then (.ok, ⟨explicitFs, initStats 0, []⟩)
    else (.ok, runTasks cfg codec tasks explicitFs (initStats tasks.length))
  else
    match rootEntries with
    | none => (.fatal, ⟨[], initStats 0, []⟩)
    | some entries =>
      let fs := flattenTree rootPath entries
      let tasks := getMediaFiles rootPath entries
      if tasks = [] then (.ok, ⟨fs, initStats 0, []⟩)
      else (.ok, runTasks cfg codec tasks fs (initStats tasks.length))

/-- The scanner's observable result on the flat filesystem model: every
stored path whose lowercase extension is in the allow-list, in storage
order.  This is `getMediaFiles` viewed through `flattenTree` and is used to
model a *re*-scan of a filesystem the driver has already written into. -/
def scanFlat (fs : FS) : List Str :=
  (fs.map Prod.fst).filter (fun p => decide (toLower (extname p) ∈ allSupportedFormats))

/-- Modelled from the spec: "`outputPath` = `inputPath` with its extension
replaced by `.webp` or `.avif` per `config.outputFormat`" — drop the
extension suffix and append the output extension.  Stated for comparison
with the source's `outPath`. -/
def specOutputPath (fmt : OutputFormat) (p : Str) : Str :=
  p.take (p.length - (extname p).length) ++ outputExtOf fmt

/-- Predicate: `fs2` contains every binding of `fs1`, with identical contents. -/
def Extends (fs1 fs2 : FS) : Prop :=
  ∀ q f, fsFind fs1 q = some f → fsFind fs2 q = some f

/-- The deterministic codec rejects this input file (at the probe, or at
the encode with the parameters the policy derives for path `p`). -/
def ContentFails (cfg : Config) (codec : Codec) (p : Str) (c : File) : Prop :=
  codec.probe c = none ∨
    ∃ md, codec.probe c = some md ∧ codec.encode (encodeParamsFor cfg p md) c = none

/-! ## Concrete fixtures used by witnesses and counterexamples -/

/-- WebP configuration with the source's default qualities and efforts. -/
def cfgWebp : Config := ⟨.webp, false, 80, 6, 75, 6⟩

/-- AVIF configuration with `AVIF_EFFORT = 9`. -/
def cfgAvif9 : Config := ⟨.avif, false, 80, 6, 75, 9⟩

/-- A codec that reads every file and encodes it to its first byte. -/
def codecTotal : Codec :=
  ⟨fun _ => some ⟨8, 8, none⟩, fun _ f => some ⟨f.bytes.take 1⟩⟩

/-- A codec whose encode step always rejects. -/
def codecEncodeFail : Codec :=
  ⟨fun _ => some ⟨8, 8, none⟩, fun _ _ => none⟩

/-- A root holding the single file `a.jpg.jpg` — a legal name whose
extension substring also occurs before the final extension. -/
def fsDoubleExt : FS := [(str "a.jpg.jpg", ⟨[1, 2]⟩)]

/-- First full run over `fsDoubleExt` (tasks discovered by scanning). -/
def runOneDoubleExt : RunResult :=
  runTasks cfgWebp codecTotal (scanFlat fsDoubleExt) fsDoubleExt
    (initStats (scanFlat fsDoubleExt).length)

/-- Second full run: rescan the filesystem the first run produced and run
the driver again with the same configuration. -/
def runTwoDoubleExt : RunResult :=
  runTasks cfgWebp codecTotal (scanFlat runOneDoubleExt.fs) runOneDoubleExt.fs
    (initStats (scanFlat runOneDoubleExt.fs).length)

/-! ## Basic facts about one `convertMedia` step -/

/-- Each call increments exactly one of the three outcome counters, and
never touches `totalFiles`. -/
theorem convertMedia_stats_sum (cfg : Config) (codec : Codec) (p : Str) (fs : FS) (st : Stats) :
    ((convertMedia cfg codec p fs st).2.1).converted +
      ((convertMedia cfg codec p fs st).2.1).skipped +
      ((convertMedia cfg codec p fs st).2.1).errors
      = st.converted + st.skipped + st.errors + 1 ∧
    ((convertMedia cfg codec p fs st).2.1).totalFiles = st.totalFiles := by
  unfold convertMedia
  dsimp only
  split
  · simp; omega
  · split
    · simp; omega
    · split
      · simp; omega
      · split
        · simp; omega
        · simp; omega

/-- A step never removes or changes an existing filesystem binding: the only
write targets a path that was just checked to be absent. -/
theorem convertMedia_preserves (cfg : Config) (codec : Codec) (p : Str) (fs : FS) (st : Stats)
    (q : Str) (f : File) (h : fsFind fs q = some f) :
    fsFind (convertMedia cfg codec p fs st).1 q = some f := by
  unfold convertMedia
  dsimp only
  split
  · exact h
  · rename_i hout
    split
    · exact h
    · split
      · exact h
      · split
        · exact h
        · simp only [fsFind]
          split
          · rename_i heq
            rw [heq, h] at hout
            simp at hout
          · exact h

/-- Error counter is monotone across a step. -/
theorem convertMedia_errors_le (cfg : Config) (codec : Codec) (p : Str) (fs : FS) (st : Stats) :
    st.errors ≤ ((convertMedia cfg codec p fs st).2.1).errors := by
  unfold convertMedia
  dsimp only
  split
  · simp
  · split
    · simp
    · split
      · simp
      · split
        · simp
        · simp

/-! ## Basic facts about the batch loop -/

/-- Every pre-existing binding survives a whole run unchanged. -/
theorem runTasks_preserves (cfg : Config) (codec : Codec) :
    ∀ (ts : List Str) (fs : FS) (st : Stats) (q : Str) (f : File),
      fsFind fs q = some f → fsFind (runTasks cfg codec ts fs st).fs q = some f
  | [], _, _, _, _, h => h
  | p :: ps, fs, st, q, f, h =>
    runTasks_preserves cfg codec ps _ _ q f (convertMedia_preserves cfg codec p fs st q f h)

/-- The three outcome counters absorb exactly one increment per task, and
`totalFiles` is left alone by the loop. -/
theorem runTasks_stats_sum (cfg : Config) (codec : Codec) :
    ∀ (ts : List Str) (fs : FS) (st : Stats),
      ((runTasks cfg codec ts fs st).stats).converted +
        ((runTasks cfg codec ts fs st).stats).skipped +
        ((runTasks cfg codec ts fs st).stats).errors
        = st.converted + st.skipped + st.errors + ts.length ∧
      ((runTasks cfg codec ts fs st).stats).totalFiles = st.totalFiles
  | [], fs, st => by simp [runTasks]
  | p :: ps, fs, st => by
    have h1 := convertMedia_stats_sum cfg codec p fs st
    have h2 := runTasks_stats_sum cfg codec ps (convertMedia cfg codec p fs st).1
      (convertMedia cfg codec p fs st).2.1
    simp only [runTasks, List.length_cons]
    omega

/-- One outcome per task. -/
theorem runTasks_outcomes_length (cfg : Config) (codec : Codec) :
    ∀ (ts : List Str) (fs : FS) (st : Stats),
      (runTasks cfg codec ts fs st).outcomes.length = ts.length
  | [], _, _ => rfl
  | _ :: ps, fs, st => by
    simp only [runTasks, List.length_cons]
    rw [runTasks_outcomes_length cfg codec ps]

/-- The loop over a concatenation is the loop over the first part followed
by the loop over the second from the intermediate state. -/
theorem runTasks_append (cfg : Config) (codec : Codec) :
    ∀ (xs ys : List Str) (fs : FS) (st : Stats),
      runTasks cfg codec (xs ++ ys) fs st =
        ⟨(runTasks cfg codec ys (runTasks cfg codec xs fs st).fs
            (runTasks cfg codec xs fs st).stats).fs,
         (runTasks cfg codec ys (runTasks cfg codec xs fs st).fs
            (runTasks cfg codec xs fs st).stats).stats,
         (runTasks cfg codec xs fs st).outcomes ++
           (runTasks cfg codec ys (runTasks cfg codec xs fs st).fs
              (runTasks cfg codec xs fs st).stats).outcomes⟩
  | [], ys, fs, st => by simp [runTasks]
  | p :: ps, ys, fs, st => by
    simp only [List.cons_append, runTasks, List.append_eq]
    rw [runTasks_append cfg codec ps ys]

/-! ## String and path lemmas -/

/-- A list-prefix is no longer than the list. -/
theorem isPrefixOf_length_le : ∀ (e l : Str), e.isPrefixOf l = true → e.length ≤ l.length
  | [], _, _ => Nat.zero_le _
  | _ :: _, [], h => by simp [List.isPrefixOf] at h
  | a :: e', b :: l', h => by
    simp only [List.isPrefixOf, Bool.and_eq_true] at h
    have := isPrefixOf_length_le e' l' h.2
    simp only [List.length_cons]
    omega

/-- A list-prefix of equal length is the list itself. -/
theorem eq_of_isPrefixOf_length :
    ∀ (e l : Str), e.isPrefixOf l = true → e.length = l.length → e = l
  | [], [], _, _ => rfl
  | [], _ :: _, _, h => by simp at h
  | _ :: _, [], h, _ => by simp [List.isPrefixOf] at h
  | a :: e', b :: l', h, hl => by
    simp only [List.isPrefixOf, Bool.and_eq_true, beq_iff_eq] at h
    simp only [List.length_cons, Nat.add_right_cancel_iff] at hl
    rw [h.1, eq_of_isPrefixOf_length e' l' h.2 hl]

/-- When a nonempty pattern occurs in `s` only as its trailing suffix,
JavaScript first-occurrence replacement is exactly suffix replacement. -/
theorem replaceFirst_of_unique :
    ∀ (s e out : Str), e ≠ [] →
      e.isPrefixOf (s.drop (s.length - e.length)) = true →
      (∀ i, i < s.length → e.isPrefixOf (s.drop i) = true → i = s.length - e.length) →
      replaceFirst s e out = s.take (s.length - e.length) ++ out
  | [], e, out, hne, he, _ => by
    cases e with
    | nil => exact absurd rfl hne
    | cons a e' => simp [List.isPrefixOf] at he
  | c :: rest, e, out, hne, he, huniq => by
    simp only [replaceFirst]
    rw [if_neg hne]
    by_cases hp : e.isPrefixOf (c :: rest) = true
    · have h0 := huniq 0 (by simp) (by simpa using hp)
      have hle := isPrefixOf_length_le e (c :: rest) hp
      have hlen : e.length = (c :: rest).length := by omega
      have heq := eq_of_isPrefixOf_length e (c :: rest) hp hlen
      rw [if_pos hp, heq]
      simp
    · rw [if_neg hp]
      have hlt : e.length < (c :: rest).length := by
        rcases Nat.lt_or_ge e.length (c :: rest).length with h | h
        · exact h
        · exfalso
          have hz : (c :: rest).length - e.length = 0 := by omega
          rw [hz, List.drop_zero] at he
          exact hp he
      have hle' : e.length ≤ rest.length := by
        simp only [List.length_cons] at hlt
        omega
      have hsub : (c :: rest).length - e.length = rest.length - e.length + 1 := by
        simp only [List.length_cons]
        omega
      have he' : e.isPrefixOf (rest.drop (rest.length - e.length)) = true := by
        rw [hsub] at he
        simpa using he
      have huniq' : ∀ i, i < rest.length → e.isPrefixOf (rest.drop i) = true →
          i = rest.length - e.length := by
        intro i hi hpre
        have := huniq (i + 1) (by simp only [List.length_cons]; omega) (by simpa using hpre)
        omega
      rw [replaceFirst_of_unique rest e out hne he' huniq', hsub, List.take_succ_cons]
      rfl

/-- Fact: `takeWhile` runs through a satisfying block and stops at the first
failing element. -/
theorem takeWhile_append_stop (p : Char → Bool) (x : Char) (hx : p x = false) :
    ∀ (l r : Str), (∀ c ∈ l, p c = true) → (l ++ x :: r).takeWhile p = l
  | [], r, _ => by simp [List.takeWhile_cons, hx]
  | c :: l', r, h => by
    have hc := h c (by simp)
    simp only [List.cons_append, List.takeWhile_cons, hc, if_true]
    rw [takeWhile_append_stop p x hx l' r (fun d hd => h d (by simp [hd]))]

/-- Fact: `takeWhile` of an all-satisfying list is the list. -/
theorem takeWhile_all_eq (p : Char → Bool) :
    ∀ (l : Str), (∀ c ∈ l, p c = true) → l.takeWhile p = l
  | [], _ => rfl
  | c :: l', h => by
    have hc := h c (by simp)
    simp only [List.takeWhile_cons, hc, if_true]
    rw [takeWhile_all_eq p l' (fun d hd => h d (by simp [hd]))]

/-- The base name of a joined path is the (separator-free) entry name. -/
theorem baseNamePart_joinPath (dir name : Str)
    (h : name.all (fun c => decide (c ≠ '/')) = true) :
    baseNamePart (joinPath dir name) = name := by
  unfold baseNamePart joinPath
  have hmem : ∀ c ∈ name.reverse, (fun c => decide (c ≠ '/')) c = true := by
    intro c hc
    exact List.all_eq_true.mp h c (List.mem_reverse.mp hc)
  rw [List.reverse_append, List.reverse_cons, List.append_assoc, List.singleton_append,
    takeWhile_append_stop _ '/' (by decide) name.reverse dir.reverse hmem,
    List.reverse_reverse]

/-- A separator-free path is its own base name. -/
theorem baseNamePart_of_all (name : Str)
    (h : name.all (fun c => decide (c ≠ '/')) = true) :
    baseNamePart name = name := by
  unfold baseNamePart
  have hmem : ∀ c ∈ name.reverse, (fun c => decide (c ≠ '/')) c = true := by
    intro c hc
    exact List.all_eq_true.mp h c (List.mem_reverse.mp hc)
  rw [takeWhile_all_eq _ name.reverse hmem, List.reverse_reverse]

/-- Joining a directory onto a separator-free entry name does not change
the extension. -/
theorem extname_joinPath (dir name : Str)
    (h : name.all (fun c => decide (c ≠ '/')) = true) :
    extname (joinPath dir name) = extname name := by
  unfold extname
  rw [baseNamePart_joinPath dir name h, baseNamePart_of_all name h]

/-! ## Second-run analysis -/

/-- When the output path already exists the step is a pure skip. -/
theorem convertMedia_skip (cfg : Config) (codec : Codec) (p : Str) (fs : FS) (st : Stats)
    (h : (fsFind fs (outPath cfg p)).isSome = true) :
    convertMedia cfg codec p fs st = (fs, { st with skipped := st.skipped + 1 }, .skipped) := by
  unfold convertMedia
  dsimp only
  rw [if_pos h]

/-- After a step on a task whose input content is `c`, either the output
path exists in the resulting filesystem or the codec deterministically
rejects `c` for this task. -/
theorem convertMedia_step_cases (cfg : Config) (codec : Codec) (p : Str) (fs : FS) (st : Stats)
    (c : File) (hc : fsFind fs p = some c) :
    (fsFind (convertMedia cfg codec p fs st).1 (outPath cfg p)).isSome = true ∨
      ContentFails cfg codec p c := by
  unfold convertMedia
  dsimp only
  split
  · rename_i hex
    exact Or.inl hex
  · rw [hc]
    dsimp only
    cases hpr : codec.probe c with
    | none => exact Or.inr (Or.inl hpr)
    | some md =>
      dsimp only
      cases henc : codec.encode (encodeParamsFor cfg p md) c with
      | none => exact Or.inr (Or.inr ⟨md, hpr, henc⟩)
      | some out =>
        dsimp only
        left
        simp [fsFind]

/-- A step on a "covered" task — output already produced, or content the
codec rejects — writes nothing and converts nothing. -/
theorem convertMedia_covered (cfg : Config) (codec : Codec) (p : Str) (fs : FS) (st : Stats)
    (h : (fsFind fs (outPath cfg p)).isSome = true ∨
      ∃ c, fsFind fs p = some c ∧ ContentFails cfg codec p c) :
    (convertMedia cfg codec p fs st).1 = fs ∧
    ((convertMedia cfg codec p fs st).2.1).converted = st.converted := by
  unfold convertMedia
  dsimp only
  split
  · exact ⟨rfl, rfl⟩
  · rename_i hex
    rcases h with hout | ⟨c, hc, hcf⟩
    · exact absurd hout hex
    · rw [hc]
      dsimp only
      rcases hcf with hpr | ⟨md, hpr, henc⟩
      · rw [hpr]
        exact ⟨rfl, rfl⟩
      · rw [hpr]
        dsimp only
        rw [henc]
        exact ⟨rfl, rfl⟩

/-- A step that does not bump the error counter leaves the output path
present in the resulting filesystem. -/
theorem convertMedia_output_present_of_no_error (cfg : Config) (codec : Codec) (p : Str)
    (fs : FS) (st : Stats)
    (h : ((convertMedia cfg codec p fs st).2.1).errors = st.errors) :
    (fsFind (convertMedia cfg codec p fs st).1 (outPath cfg p)).isSome = true := by
  revert h
  unfold convertMedia
  dsimp only
  split
  · rename_i hex
    exact fun _ => hex
  · split
    · intro h
      simp at h
    · split
      · intro h
        simp at h
      · split
        · intro h
          simp at h
        · intro _
          simp [fsFind]

/-- The error counter is monotone across a run. -/
theorem runTasks_errors_le (cfg : Config) (codec : Codec) :
    ∀ (ts : List Str) (fs : FS) (st : Stats),
      st.errors ≤ (runTasks cfg codec ts fs st).stats.errors
  | [], _, _ => Nat.le_refl _
  | p :: ps, fs, st =>
    Nat.le_trans (convertMedia_errors_le cfg codec p fs st)
      (runTasks_errors_le cfg codec ps (convertMedia cfg codec p fs st).1
        (convertMedia cfg codec p fs st).2.1)

/-- After a run whose tasks all existed beforehand, every task is covered:
its output path exists in the final filesystem, or its (unchanged) content
is one the codec deterministically rejects. -/
theorem runTasks_post_covered (cfg : Config) (codec : Codec) :
    ∀ (ts : List Str) (fs fs0 : FS) (st : Stats),
      Extends fs0 fs →
      ∀ t ∈ ts, (fsFind fs0 t).isSome = true →
        ((fsFind (runTasks cfg codec ts fs st).fs (outPath cfg t)).isSome = true ∨
          ∃ c, fsFind fs0 t = some c ∧ ContentFails cfg codec t c)
  | [], _, _, _, _, t, ht, _ => absurd ht (List.not_mem_nil t)
  | p :: ps, fs, fs0, st, hext, t, ht, hex => by
    rcases List.mem_cons.mp ht with rfl | hmem
    · obtain ⟨c, hc0⟩ := Option.isSome_iff_exists.mp hex
      have hc : fsFind fs t = some c := hext t c hc0
      rcases convertMedia_step_cases cfg codec t fs st c hc with hout | hcf
      · obtain ⟨f, hf⟩ := Option.isSome_iff_exists.mp hout
        left
        simp only [runTasks]
        rw [runTasks_preserves cfg codec ps _ _ _ f hf]
        rfl
      · exact Or.inr ⟨c, hc0, hcf⟩
    · exact runTasks_post_covered cfg codec ps (convertMedia cfg codec p fs st).1 fs0
        (convertMedia cfg codec p fs st).2.1
        (fun q f hq => convertMedia_preserves cfg codec p fs st q f (hext q f hq))
        t hmem hex

/-- A run that produced no new error left every task's output present. -/
theorem runTasks_all_outputs_of_no_error (cfg : Config) (codec : Codec) :
    ∀ (ts : List Str) (fs : FS) (st : Stats),
      (runTasks cfg codec ts fs st).stats.errors = st.errors →
      ∀ t ∈ ts, (fsFind (runTasks cfg codec ts fs st).fs (outPath cfg t)).isSome = true
  | [], _, _, _, t, ht => absurd ht (List.not_mem_nil t)
  | p :: ps, fs, st, herr, t, ht => by
    have h1 := convertMedia_errors_le cfg codec p fs st
    have h2 := runTasks_errors_le cfg codec ps (convertMedia cfg codec p fs st).1
      (convertMedia cfg codec p fs st).2.1
    simp only [runTasks] at herr
    have hstep : ((convertMedia cfg codec p fs st).2.1).errors = st.errors := by omega
    rcases List.mem_cons.mp ht with rfl | hmem
    · obtain ⟨f, hf⟩ := Option.isSome_iff_exists.mp
        (convertMedia_output_present_of_no_error cfg codec t fs st hstep)
      simp only [runTasks]
      rw [runTasks_preserves cfg codec ps _ _ _ f hf]
      rfl
    · simp only [runTasks]
      exact runTasks_all_outputs_of_no_error cfg codec ps _ _ (by omega) t hmem

/-- A run over covered tasks converts nothing; if moreover every task's
output was already present, it errors nothing either. -/
theorem runTasks_covered (cfg : Config) (codec : Codec) :
    ∀ (ts : List Str) (fs2 fs0 fs1 : FS) (st : Stats),
      Extends fs0 fs2 → Extends fs1 fs2 →
      (∀ t ∈ ts,
        (fsFind fs1 (outPath cfg t)).isSome = true ∨
          ∃ c, fsFind fs0 t = some c ∧ ContentFails cfg codec t c) →
      (runTasks cfg codec ts fs2 st).stats.converted = st.converted ∧
      ((∀ t ∈ ts, (fsFind fs1 (outPath cfg t)).isSome = true) →
        (runTasks cfg codec ts fs2 st).stats.errors = st.errors)
  | [], _, _, _, _, _, _, _ => ⟨rfl, fun _ => rfl⟩
  | p :: ps, fs2, fs0, fs1, st, hext0, hext1, hcov => by
    have hcovp := hcov p (List.mem_cons_self p ps)
    have hcovp' : (fsFind fs2 (outPath cfg p)).isSome = true ∨
        ∃ c, fsFind fs2 p = some c ∧ ContentFails cfg codec p c := by
      rcases hcovp with hout | ⟨c, hc, hcf⟩
      · obtain ⟨f, hf⟩ := Option.isSome_iff_exists.mp hout
        exact Or.inl (by rw [hext1 _ f hf]; rfl)
      · exact Or.inr ⟨c, hext0 _ c hc, hcf⟩
    obtain ⟨hfs, hconv⟩ := convertMedia_covered cfg codec p fs2 st hcovp'
    have ih := runTasks_covered cfg codec ps (convertMedia cfg codec p fs2 st).1 fs0 fs1
      (convertMedia cfg codec p fs2 st).2.1
      (by rw [hfs]; exact hext0) (by rw [hfs]; exact hext1)
      (fun t ht => hcov t (List.mem_cons_of_mem p ht))
    constructor
    · simp only [runTasks]
      rw [ih.1, hconv]
    · intro hall
      have hp := hall p (List.mem_cons_self p ps)
      obtain ⟨f, hf⟩ := Option.isSome_iff_exists.mp hp
      have hskip := convertMedia_skip cfg codec p fs2 st (by rw [hext1 _ f hf]; rfl)
      simp only [runTasks]
      rw [ih.2 (fun t ht => hall t (List.mem_cons_of_mem p ht)), hskip]

/-! ## Scanner lemmas -/

/-- Every path the recursive scan emits has an allow-listed lowercase
extension (given separator-free entry names). -/
theorem getMediaFiles_ext_allowed :
    ∀ (dir : Str) (es : List Entry), entriesWF es = true →
      ∀ p ∈ getMediaFiles dir es, toLower (extname p) ∈ allSupportedFormats
  | _, [], _, p, hp => by simp [getMediaFiles] at hp
  | dir, .file name f :: rest, hwf, p, hp => by
    simp only [entriesWF, Bool.and_eq_true] at hwf
    simp only [getMediaFiles] at hp
    rcases List.mem_append.mp hp with h1 | h2
    · by_cases hall : toLower (extname name) ∈ allSupportedFormats
      · rw [if_pos hall] at h1
        have : p = joinPath dir name := by simpa using h1
        rw [this, extname_joinPath dir name hwf.1]
        exact hall
      · rw [if_neg hall] at h1
        simp at h1
    · exact getMediaFiles_ext_allowed dir rest hwf.2 p h2
  | dir, .dir name sub :: rest, hwf, p, hp => by
    simp only [entriesWF, Bool.and_eq_true] at hwf
    simp only [getMediaFiles] at hp
    rcases List.mem_append.mp hp with h1 | h2
    · exact getMediaFiles_ext_allowed (joinPath dir name) sub hwf.1.2 p h1
    · exact getMediaFiles_ext_allowed dir rest hwf.2 p h2

/-! ## The claims -/

/-- C1: after a complete run of the batch driver over any discovered file
list, the final statistics satisfy
`converted + skipped + errors = totalFiles`, with `totalFiles` the number of
discovered tasks: every task contributes exactly one outcome counter
increment. -/
theorem C1_counters_partition_total (cfg : Config) (codec : Codec) (tasks : List Str) (fs : FS) :
    ((runTasks cfg codec tasks fs (initStats tasks.length)).stats).converted +
      ((runTasks cfg codec tasks fs (initStats tasks.length)).stats).skipped +
      ((runTasks cfg codec tasks fs (initStats tasks.length)).stats).errors
      = ((runTasks cfg codec tasks fs (initStats tasks.length)).stats).totalFiles ∧
    ((runTasks cfg codec tasks fs (initStats tasks.length)).stats).totalFiles = tasks.length := by
  have h := runTasks_stats_sum cfg codec tasks fs (initStats tasks.length)
  have h0 : (initStats tasks.length).converted = 0 ∧ (initStats tasks.length).skipped = 0 ∧
      (initStats tasks.length).errors = 0 ∧ (initStats tasks.length).totalFiles = tasks.length :=
    ⟨rfl, rfl, rfl, rfl⟩
  omega

/-- C3: a per-file conversion failure is fully isolated: when the task
`bad` fails, the run still processes every task after it — the outcome log
is the log of the prefix, then `failed`, then exactly the log of the
remaining tasks run from the post-failure state — and every task of the
batch yields exactly one outcome. -/
theorem C3_failure_isolated (cfg : Config) (codec : Codec) (ts1 ts2 : List Str) (bad : Str)
    (fs : FS) (st : Stats)
    (h : (convertMedia cfg codec bad (runTasks cfg codec ts1 fs st).fs
            (runTasks cfg codec ts1 fs st).stats).2.2 = .failed) :
    (runTasks cfg codec (ts1 ++ bad :: ts2) fs st).outcomes =
      (runTasks cfg codec ts1 fs st).outcomes ++ .failed ::
        (runTasks cfg codec ts2
          (convertMedia cfg codec bad (runTasks cfg codec ts1 fs st).fs
            (runTasks cfg codec ts1 fs st).stats).1
          (convertMedia cfg codec bad (runTasks cfg codec ts1 fs st).fs
            (runTasks cfg codec ts1 fs st).stats).2.1).outcomes ∧
    (runTasks cfg codec (ts1 ++ bad :: ts2) fs st).outcomes.length
      = ts1.length + 1 + ts2.length := by
  constructor
  · rw [runTasks_append cfg codec ts1 (bad :: ts2)]
    simp only [runTasks]
    rw [h]
  · rw [runTasks_outcomes_length cfg codec]
    rw [List.length_append, List.length_cons]
    omega

/-- Witness for `C3_failure_isolated`: a two-task batch whose first task is
a missing file; the second task is still converted. -/
theorem C3_failure_isolated_witness :
    (runTasks cfgWebp codecTotal ([] ++ str "bad.jpg" :: [str "a.jpg"])
        [(str "a.jpg", ⟨[1, 2]⟩)] (initStats 2)).outcomes =
      (runTasks cfgWebp codecTotal [] [(str "a.jpg", ⟨[1, 2]⟩)] (initStats 2)).outcomes ++
        .failed ::
        (runTasks cfgWebp codecTotal [str "a.jpg"]
          (convertMedia cfgWebp codecTotal (str "bad.jpg")
            (runTasks cfgWebp codecTotal [] [(str "a.jpg", ⟨[1, 2]⟩)] (initStats 2)).fs
            (runTasks cfgWebp codecTotal [] [(str "a.jpg", ⟨[1, 2]⟩)] (initStats 2)).stats).1
          (convertMedia cfgWebp codecTotal (str "bad.jpg")
            (runTasks cfgWebp codecTotal [] [(str "a.jpg", ⟨[1, 2]⟩)] (initStats 2)).fs
            (runTasks cfgWebp codecTotal [] [(str "a.jpg", ⟨[1, 2]⟩)] (initStats 2)).stats).2.1).outcomes ∧
    (runTasks cfgWebp codecTotal ([] ++ str "bad.jpg" :: [str "a.jpg"])
        [(str "a.jpg", ⟨[1, 2]⟩)] (initStats 2)).outcomes.length = 0 + 1 + 1 :=
  C3_failure_isolated cfgWebp codecTotal [] [str "a.jpg"] (str "bad.jpg")
    [(str "a.jpg", ⟨[1, 2]⟩)] (initStats 2) (by decide)

/-- C4: no code path of the conversion routine or batch driver deletes or
overwrites an existing file: every binding present before the run — in
particular every original input file — is still present with identical
bytes afterwards. -/
theorem C4_originals_preserved (cfg : Config) (codec : Codec) (tasks : List Str) (fs : FS)
    (st : Stats) (p : Str) (f : File) (h : fsFind fs p = some f) :
    fsFind (runTasks cfg codec tasks fs st).fs p = some f :=
  runTasks_preserves cfg codec tasks fs st p f h

/-- Witness for `C4_originals_preserved`: a converted input keeps its bytes. -/
theorem C4_originals_preserved_witness :
    fsFind (runTasks cfgWebp codecTotal [str "a.jpg"]
        [(str "a.jpg", ⟨[7, 9]⟩)] (initStats 1)).fs (str "a.jpg") = some ⟨[7, 9]⟩ :=
  C4_originals_preserved cfgWebp codecTotal [str "a.jpg"]
    [(str "a.jpg", ⟨[7, 9]⟩)] (initStats 1) (str "a.jpg") ⟨[7, 9]⟩ (by decide)

/-- C5: a task is skipped — outcome `skipped`, skipped counter incremented,
filesystem untouched, no encode performed — exactly when the derived output
path already exists at decision time. -/
theorem C5_skip_iff_output_exists (cfg : Config) (codec : Codec) (p : Str) (fs : FS) (st : Stats) :
    ((convertMedia cfg codec p fs st).2.2 = .skipped ↔
      (fsFind fs (outPath cfg p)).isSome = true) ∧
    ((fsFind fs (outPath cfg p)).isSome = true →
      convertMedia cfg codec p fs st = (fs, { st with skipped := st.skipped + 1 }, .skipped)) := by
  unfold convertMedia
  dsimp only
  split
  · rename_i hex
    exact ⟨by simp [hex], fun _ => rfl⟩
  · rename_i hex
    split
    · exact ⟨by simp [hex], fun hs => absurd hs hex⟩
    · split
      · exact ⟨by simp [hex], fun hs => absurd hs hex⟩
      · split
        · exact ⟨by simp [hex], fun hs => absurd hs hex⟩
        · exact ⟨by simp [hex], fun hs => absurd hs hex⟩

/-- Witness for `C5_skip_iff_output_exists` at a state where the output
path `a.webp` already exists. -/
theorem C5_skip_iff_output_exists_witness :
    ((convertMedia cfgWebp codecTotal (str "a.jpg")
        [(str "a.webp", ⟨[5]⟩), (str "a.jpg", ⟨[1]⟩)] (initStats 1)).2.2 = .skipped ↔
      (fsFind [(str "a.webp", ⟨[5]⟩), (str "a.jpg", ⟨[1]⟩)]
        (outPath cfgWebp (str "a.jpg"))).isSome = true) ∧
    ((fsFind [(str "a.webp", ⟨[5]⟩), (str "a.jpg", ⟨[1]⟩)]
        (outPath cfgWebp (str "a.jpg"))).isSome = true →
      convertMedia cfgWebp codecTotal (str "a.jpg")
          [(str "a.webp", ⟨[5]⟩), (str "a.jpg", ⟨[1]⟩)] (initStats 1) =
        ([(str "a.webp", ⟨[5]⟩), (str "a.jpg", ⟨[1]⟩)],
         { initStats 1 with skipped := (initStats 1).skipped + 1 }, .skipped)) :=
  C5_skip_iff_output_exists cfgWebp codecTotal (str "a.jpg")
    [(str "a.webp", ⟨[5]⟩), (str "a.jpg", ⟨[1]⟩)] (initStats 1)

/-- C2 counterexample: JavaScript `replace` substitutes the *first*
occurrence of the extension substring, so `photo.jpg.jpg` maps to
`photo.webp.jpg`, not to the spec's suffix replacement `photo.jpg.webp`;
and the mapping is not collision-free: the unrelated inputs `a.jpg` and
`a.png` both derive the output path `a.webp`. -/
theorem C2_output_path_counterexample :
    outPath cfgWebp (str "photo.jpg.jpg") ≠ specOutputPath .webp (str "photo.jpg.jpg") ∧
    outPath cfgWebp (str "photo.jpg.jpg") = str "photo.webp.jpg" ∧
    specOutputPath .webp (str "photo.jpg.jpg") = str "photo.jpg.webp" ∧
    outPath cfgWebp (str "a.jpg") = outPath cfgWebp (str "a.png") ∧
    str "a.jpg" ≠ str "a.png" := by decide

/-- C2 (amended): the derived output path replaces the *first* occurrence
of the extension substring in the input path; whenever the extension is
nonempty and occurs in the path only as its trailing suffix, this agrees
with the spec's extension-suffix replacement.  (Distinct inputs differing
only in extension still collide on one output path.) -/
theorem C2_output_path_amended (cfg : Config) (p : Str)
    (hne : extname p ≠ [])
    (hsuf : (extname p).isPrefixOf (p.drop (p.length - (extname p).length)) = true)
    (huniq : ∀ i, i < p.length → (extname p).isPrefixOf (p.drop i) = true →
      i = p.length - (extname p).length) :
    outPath cfg p = specOutputPath cfg.outputFormat p :=
  replaceFirst_of_unique p (extname p) (outputExtOf cfg.outputFormat) hne hsuf huniq

/-- Witness for `C2_output_path_amended` at `a.jpg`. -/
theorem C2_output_path_amended_witness :
    outPath cfgWebp (str "a.jpg") = specOutputPath OutputFormat.webp (str "a.jpg") :=
  C2_output_path_amended cfgWebp (str "a.jpg") (by decide) (by decide) (by decide)

/-- C6 counterexample: a root containing the single file `a.jpg.jpg`.  The
first run converts it without error but — because `replace` substitutes
the first occurrence of `.jpg` — writes the output to `a.webp.jpg`, whose
extension is still in the allow-list; the second run's re-scan of the same
root therefore discovers a new task and converts it: `converted = 1 ≠ 0`
on the second run even though the first run had no failures. -/
theorem C6_second_run_counterexample :
    scanFlat fsDoubleExt = [str "a.jpg.jpg"] ∧
    runOneDoubleExt.stats.errors = 0 ∧
    runOneDoubleExt.stats.converted = 1 ∧
    scanFlat runOneDoubleExt.fs = [str "a.webp.jpg", str "a.jpg.jpg"] ∧
    runTwoDoubleExt.stats.converted = 1 := by decide

/-- C6 (amended): running the driver a second time over the *same task
list*, all of whose input files existed before the first run, converts
nothing, and when the first run had no failures the second run also has
none (every task skips).  (With a genuine re-scan the statement fails,
because an output such as `a.webp.jpg` can itself match the allow-list and
become a fresh task — see the counterexample.) -/
theorem C6_idempotent_amended (cfg : Config) (codec : Codec) (tasks : List Str) (fs : FS)
    (hin : ∀ t ∈ tasks, (fsFind fs t).isSome = true) :
    (runTasks cfg codec tasks (runTasks cfg codec tasks fs (initStats tasks.length)).fs
        (initStats tasks.length)).stats.converted = 0 ∧
    ((runTasks cfg codec tasks fs (initStats tasks.length)).stats.errors = 0 →
      (runTasks cfg codec tasks (runTasks cfg codec tasks fs (initStats tasks.length)).fs
        (initStats tasks.length)).stats.errors = 0) := by
  have hext : Extends fs (runTasks cfg codec tasks fs (initStats tasks.length)).fs :=
    fun q f hq => runTasks_preserves cfg codec tasks fs (initStats tasks.length) q f hq
  have hid : Extends (runTasks cfg codec tasks fs (initStats tasks.length)).fs
      (runTasks cfg codec tasks fs (initStats tasks.length)).fs := fun _ _ hq => hq
  have hcov := runTasks_post_covered cfg codec tasks fs fs (initStats tasks.length)
    (fun _ _ hq => hq)
  have hmain := runTasks_covered cfg codec tasks
    (runTasks cfg codec tasks fs (initStats tasks.length)).fs fs
    (runTasks cfg codec tasks fs (initStats tasks.length)).fs
    (initStats tasks.length) hext hid
    (fun t ht => hcov t ht (hin t ht))
  refine ⟨hmain.1, fun herr => ?_⟩
  exact hmain.2 (runTasks_all_outputs_of_no_error cfg codec tasks fs (initStats tasks.length) herr)

/-- Witness for `C6_idempotent_amended`: one existing `a.jpg`. -/
theorem C6_idempotent_amended_witness :
    (runTasks cfgWebp codecTotal [str "a.jpg"]
        (runTasks cfgWebp codecTotal [str "a.jpg"] [(str "a.jpg", ⟨[1]⟩)] (initStats 1)).fs
        (initStats 1)).stats.converted = 0 ∧
    ((runTasks cfgWebp codecTotal [str "a.jpg"] [(str "a.jpg", ⟨[1]⟩)]
        (initStats 1)).stats.errors = 0 →
      (runTasks cfgWebp codecTotal [str "a.jpg"]
        (runTasks cfgWebp codecTotal [str "a.jpg"] [(str "a.jpg", ⟨[1]⟩)] (initStats 1)).fs
        (initStats 1)).stats.errors = 0) :=
  C6_idempotent_amended cfgWebp codecTotal [str "a.jpg"] [(str "a.jpg", ⟨[1]⟩)] (by decide)

/-- C7 counterexample: when the encode step fails, the failed counter is
incremented but `originalSize` — added at `fs.stat` time, *before* the
encode — is not rolled back: the failing task changes the original-size
byte total from 0 to 2. -/
theorem C7_byte_totals_counterexample :
    ((convertMedia cfgWebp codecEncodeFail (str "a.jpg")
        [(str "a.jpg", ⟨[1, 2]⟩)] (initStats 1)).2.1).errors = 1 ∧
    ((convertMedia cfgWebp codecEncodeFail (str "a.jpg")
        [(str "a.jpg", ⟨[1, 2]⟩)] (initStats 1)).2.1).originalSize = 2 ∧
    (initStats 1).originalSize = 0 := by decide

/-- C7 (amended): a task whose encode fails bumps the failed counter and
leaves `outputSize`, `converted`, `skipped` and the filesystem unchanged —
but `originalSize` has already been increased by the input's size, which
happens at `fs.stat` time before the encode and is not rolled back. -/
theorem C7_failed_encode_amended (cfg : Config) (codec : Codec) (p : Str) (fs : FS) (st : Stats)
    (hout : (fsFind fs (outPath cfg p)).isSome = false)
    (c : File) (hin : fsFind fs p = some c)
    (md : Metadata) (hmd : codec.probe c = some md)
    (henc : codec.encode (encodeParamsFor cfg p md) c = none) :
    convertMedia cfg codec p fs st =
      (fs, { st with originalSize := st.originalSize + c.size, errors := st.errors + 1 },
        .failed) := by
  unfold convertMedia
  dsimp only
  rw [if_neg (by rw [hout]; exact Bool.false_ne_true), hin]
  dsimp only
  rw [hmd]
  dsimp only
  rw [henc]

/-- Witness for `C7_failed_encode_amended`. -/
theorem C7_failed_encode_amended_witness :
    convertMedia cfgWebp codecEncodeFail (str "a.jpg")
        [(str "a.jpg", ⟨[1, 2]⟩)] (initStats 1) =
      ([(str "a.jpg", ⟨[1, 2]⟩)],
        { initStats 1 with
            originalSize := (initStats 1).originalSize + File.size ⟨[1, 2]⟩,
            errors := (initStats 1).errors + 1 },
        .failed) :=
  C7_failed_encode_amended cfgWebp codecEncodeFail (str "a.jpg")
    [(str "a.jpg", ⟨[1, 2]⟩)] (initStats 1) (by decide) ⟨[1, 2]⟩ (by decide)
    ⟨8, 8, none⟩ rfl rfl

/-- C8 counterexample: with explicit files listed and none of them present
— a totally inaccessible work set — the process still exits zero: the
per-file `fs.access` failure is caught inside the discovery loop, so the
claimed non-zero exit does not happen. -/
theorem C8_exit_counterexample :
    ([str "missing.jpg"] ≠ ([] : List Str)) ∧
    discoverExplicit [] [str "missing.jpg"] = [] ∧
    (mainRun cfgWebp codecTotal [str "missing.jpg"] [] (str "/assets") none).1 = .ok := by
  decide

/-- C8 (amended): the process exits non-zero exactly when it is in
directory-scan mode (no explicit files) and the scan root is inaccessible;
in explicit-file mode missing files are only logged and the exit status is
zero even when every listed file is missing, and per-file conversion
failures never make the exit status non-zero. -/
theorem C8_exit_amended (cfg : Config) (codec : Codec) (explicitFiles : List Str)
    (efs : FS) (root : Str) (rootEntries : Option (List Entry)) :
    (mainRun cfg codec explicitFiles efs root rootEntries).1 = .fatal ↔
      explicitFiles = [] ∧ rootEntries = none := by
  unfold mainRun
  split
  · rename_i hne
    dsimp only
    split
    · simp [hne]
    · simp [hne]
  · rename_i hnn
    have hempty : explicitFiles = [] := not_not.mp (fun h => hnn h)
    cases rootEntries with
    | none => simp [hempty]
    | some es =>
      dsimp only
      split
      · simp [hempty]
      · simp [hempty]

/-- C9 counterexample: a `.gif` input whose probed metadata reports a
single page is detected as animated content — its AVIF effort *is* capped
at `min(AVIF_EFFORT, 4)` — yet the animation flag is not applied, because
the source guards `.animated(true)` with `metadata.pages > 1`; so the flag
is not forced on for every input detected as animated. -/
theorem C9_animated_flag_counterexample :
    isAnimatedPath (str "x.gif") = true ∧
    cfgAvif9.outputFormat = .avif ∧
    (encodeParamsFor cfgAvif9 (str "x.gif") ⟨4, 4, some 1⟩).effort = min cfgAvif9.avifEffort 4 ∧
    (encodeParamsFor cfgAvif9 (str "x.gif") ⟨4, 4, some 1⟩).animated = false := by decide

/-- C9 (amended): for AVIF output and an input detected as animated by its
extension, the effort handed to the encoder is `min(AVIF_EFFORT, 4)`; the
animation flag is set exactly when the probed metadata additionally
reports more than one page. -/
theorem C9_animated_params_amended (cfg : Config) (p : Str) (md : Metadata)
    (hfmt : cfg.outputFormat = .avif) (hanim : isAnimatedPath p = true) :
    (encodeParamsFor cfg p md).effort = min cfg.avifEffort 4 ∧
    ((encodeParamsFor cfg p md).animated = true ↔ ∃ n, md.pages = some n ∧ 1 < n) := by
  unfold encodeParamsFor
  rw [hfmt]
  dsimp only
  constructor
  · rw [hanim]
    simp
  · unfold animatedFlag
    rw [hanim]
    simp only [Bool.true_and]
    cases hpg : md.pages with
    | none => simp
    | some n => simp

/-- Witness for `C9_animated_params_amended` on a three-page GIF. -/
theorem C9_animated_params_amended_witness :
    (encodeParamsFor cfgAvif9 (str "x.gif") ⟨4, 4, some 3⟩).effort = min cfgAvif9.avifEffort 4 ∧
    ((encodeParamsFor cfgAvif9 (str "x.gif") ⟨4, 4, some 3⟩).animated = true ↔
      ∃ n, (Metadata.mk 4 4 (some 3)).pages = some n ∧ 1 < n) :=
  C9_animated_params_amended cfgAvif9 (str "x.gif") ⟨4, 4, some 3⟩ rfl (by decide)

/-- C10: in explicit-file mode the allow-list is not applied — a listed
path becomes a task exactly when it exists, regardless of extension —
whereas every task produced by the directory scan has an allow-listed
lowercase extension. -/
theorem C10_allowlist_only_in_scan_mode (fs : FS) (files : List Str) (q : Str)
    (dir : Str) (es : List Entry) (p : Str) (hwf : entriesWF es = true) :
    (q ∈ discoverExplicit fs files ↔ q ∈ files ∧ (fsFind fs q).isSome = true) ∧
    (p ∈ getMediaFiles dir es → toLower (extname p) ∈ allSupportedFormats) := by
  constructor
  · unfold discoverExplicit
    rw [List.mem_filter]
  · exact fun hp => getMediaFiles_ext_allowed dir es hwf p hp

/-- Witness for `C10_allowlist_only_in_scan_mode`: an extensionless
explicit file `noext` is accepted as a task, and the scanned `a.jpg` has
an allow-listed extension. -/
theorem C10_allowlist_only_in_scan_mode_witness :
    (str "noext" ∈ discoverExplicit [(str "noext", ⟨[1]⟩)] [str "noext"] ↔
      str "noext" ∈ [str "noext"] ∧
        (fsFind [(str "noext", ⟨[1]⟩)] (str "noext")).isSome = true) ∧
    (joinPath (str "root") (str "a.jpg") ∈
        getMediaFiles (str "root") [.file (str "a.jpg") ⟨[2]⟩] →
      toLower (extname (joinPath (str "root") (str "a.jpg"))) ∈ allSupportedFormats) :=
  C10_allowlist_only_in_scan_mode [(str "noext", ⟨[1]⟩)] [str "noext"] (str "noext")
    (str "root") [.file (str "a.jpg") ⟨[2]⟩] (joinPath (str "root") (str "a.jpg"))
    (by simp only [entriesWF, Bool.and_true]; decide)

end ImageOptimizer
